import Mathlib

/-!
Verification of `src/moto_lens_mobile/generate_icon.py`, a single linear
pipeline: rasterize an SVG via an external process, crop the rasterized RGBA
bitmap to its alpha bounding box, scale it to fit a 1024×1024 canvas with a
140-pixel margin, paste it centered on a white canvas, flatten to RGB, save,
and remove the temporary file.

The script's arithmetic is Python arithmetic: `/` is IEEE-754 binary64
(double) division, `int(...)` truncates toward zero, `//` is floor
division.  We embed the double-precision arithmetic exactly: every double
arising in the script is a nonnegative rational, represented below as an
exact unreduced fraction of naturals, and every float operation is the
exact rational operation followed by rounding the significand to 53 bits,
nearest-even.  All values arising here lie far inside the normal range of
binary64 (magnitudes between roughly 2⁻¹¹ and 2¹⁰ for contents up to 2⁵³
pixels wide), so no overflow, underflow or subnormal behaviour intervenes
and this rounding is exactly what CPython computes.

A second, clearly named family of definitions (`scaleSpec`, `new_wSpec`,
`new_hSpec`) follows the specification's words, which state the scale with
exact real division; comparing the two families settles the
rounding-sensitive claims.
-/

/-- Fuel-bounded ⌊log₂⌋: `fuelLog2 f n` is `⌊log₂ n⌋` whenever `n ≤ 2^f`
and `0 < n`.  Structural recursion on the fuel keeps it kernel-reducible. -/
def fuelLog2 : ℕ → ℕ → ℕ
  | 0, _ => 0
  | f + 1, n => if n ≤ 1 then 0 else fuelLog2 f (n / 2) + 1

/-- `⌊log₂ n⌋` for positive `n` (0 at 0). -/
def natLog2 (n : ℕ) : ℕ := fuelLog2 n n

/-- `⌊log₂ (a/b)⌋` for positive naturals `a`, `b`: the unique `e : ℤ` with
`2^e ≤ a/b < 2^(e+1)`.  The bit-length difference is correct up to one,
and the comparison picks the right candidate. -/
def fracLog2 (a b : ℕ) : ℤ :=
  let c : ℤ := (natLog2 a : ℤ) - (natLog2 b : ℤ)
  if b * 2 ^ c.toNat ≤ a * 2 ^ (-c).toNat then c else c - 1

/-- Round the nonnegative fraction `n/d` to an integer, ties to even
(IEEE-754 `roundTiesToEven` on the integer grid). -/
def roundEven (n d : ℕ) : ℕ :=
  let q := n / d
  let r := n % d
  if 2 * r < d then q
  else if d < 2 * r then q + 1
  else if q % 2 = 0 then q else q + 1

/-- An exact nonnegative rational `num / den`, kept unreduced so that all
arithmetic on it is plain natural-number arithmetic. -/
structure Frac where
  num : ℕ
  den : ℕ
deriving DecidableEq, Repr

/-- The value of the IEEE-754 binary64 double nearest (ties to even) to the
positive rational `a/b`, as an exact fraction: the significand of `a/b` is
rounded to 53 bits.  This is CPython's `a / b` on nonnegative ints `a`,
`b > 0` (correctly rounded true division), for all values far from the
overflow/underflow thresholds — which covers everything in this script. -/
def fl (a b : ℕ) : Frac :=
  if a = 0 then ⟨0, 1⟩
  else
    let s : ℤ := 52 - fracLog2 a b
    if 0 ≤ s then ⟨roundEven (a <<< s.toNat) b, 2 ^ s.toNat⟩
    else ⟨roundEven a (b <<< (-s).toNat) <<< (-s).toNat, 1⟩

/-- Python `min` on two doubles (returns the first argument on ties). -/
def fmin (x y : Frac) : Frac :=
  if x.num * y.den ≤ y.num * x.den then x else y

/-- Python `n * x` for an int `n` and double `x`: the int is converted to
double (exact for `n < 2^53`) and the product is correctly rounded. -/
def flMul (n : ℕ) (x : Frac) : Frac := fl (n * x.num) x.den

/-- `int(x)` for a nonnegative double `x`: truncation toward zero. -/
def Frac.trunc (x : Frac) : ℕ := x.num / x.den

/-- `icon_size = 1024` — the square canvas dimension. -/
def icon_size : ℕ := 1024

/-- `padding = 140` — the margin kept on every side. -/
def padding : ℕ := 140

/-- `max_area = icon_size - (padding * 2)` — the available extent, 744. -/
def max_area : ℕ := icon_size - (padding * 2)

/-- `scale = min(max_area / car_w, max_area / car_h)` — Python float
arithmetic, embedded exactly. -/
def scale (car_w car_h : ℕ) : Frac :=
  fmin (fl max_area car_w) (fl max_area car_h)

/-- `new_w = int(car_w * scale)` — double multiply, truncated toward 0. -/
def new_w (car_w car_h : ℕ) : ℕ :=
  (flMul car_w (scale car_w car_h)).trunc

/-- `new_h = int(car_h * scale)`. -/
def new_h (car_w car_h : ℕ) : ℕ :=
  (flMul car_h (scale car_w car_h)).trunc

/-- `offset_x = (icon_size - new_w) // 2` — the centering offset for a
scaled dimension (floor division; operands nonnegative whenever the scaled
dimension fits the canvas). -/
def offset_x (nw : ℕ) : ℕ := (icon_size - nw) / 2

/-- The spec's scale, with exact real division:
`min(availableWidth/contentWidth, availableHeight/contentHeight)`. -/
def scaleSpec (car_w car_h : ℕ) : ℚ :=
  min ((max_area : ℚ) / (car_w : ℚ)) ((max_area : ℚ) / (car_h : ℚ))

/-- The spec's scaled width: `car_w * scale` rounded down to an integer,
with the scale taken under exact division. -/
def new_wSpec (car_w car_h : ℕ) : ℤ := ⌊(car_w : ℚ) * scaleSpec car_w car_h⌋

/-- The spec's scaled height under exact division. -/
def new_hSpec (car_w car_h : ℕ) : ℤ := ⌊(car_h : ℚ) * scaleSpec car_w car_h⌋

/-- A pixel of an RGBA bitmap (mode `'RGBA'`): four 8-bit bands. -/
structure RGBA where
  r : ℕ
  g : ℕ
  b : ℕ
  a : ℕ
deriving DecidableEq, Repr

/-- A pixel of an RGB bitmap (mode `'RGB'`): three bands, no alpha. -/
structure RGB where
  r : ℕ
  g : ℕ
  b : ℕ
deriving DecidableEq, Repr

/-- An RGBA bitmap: dimensions plus a pixel function (values outside the
`[0,w) × [0,h)` grid are never observed). -/
structure Img where
  w : ℕ
  h : ℕ
  px : ℕ → ℕ → RGBA

/-- An RGB bitmap — the output format, structurally without alpha. -/
structure RGBImg where
  w : ℕ
  h : ℕ
  px : ℕ → ℕ → RGB

/-- A PIL crop box `(left, upper, right, lower)`; `right` and `lower` are
exclusive. -/
structure Box where
  left : ℕ
  upper : ℕ
  right : ℕ
  lower : ℕ
deriving DecidableEq, Repr

/-- The coordinates of the pixels with nonzero alpha.  PIL's
`Image.getbbox()` on an RGBA image considers only the alpha band
(`alpha_only` defaults to true). -/
def alphaPts (img : Img) : Finset (ℕ × ℕ) :=
  (Finset.range img.w ×ˢ Finset.range img.h).filter fun p => 0 < (img.px p.1 p.2).a

/-- `car_img.getbbox()`: the tight bounding box of the pixels with nonzero
alpha, or `None` when there are none. -/
def getbbox (img : Img) : Option Box :=
  if hne : (alphaPts img).Nonempty then
    some ⟨((alphaPts img).image Prod.fst).min' (hne.image _),
          ((alphaPts img).image Prod.snd).min' (hne.image _),
          ((alphaPts img).image Prod.fst).max' (hne.image _) + 1,
          ((alphaPts img).image Prod.snd).max' (hne.image _) + 1⟩
  else none

/-- `car_img.crop(bbox)`: the sub-bitmap of extent `right-left` by
`lower-upper` whose pixel `(x, y)` is the source's `(left+x, upper+y)`. -/
def crop (img : Img) (bb : Box) : Img :=
  { w := bb.right - bb.left
    h := bb.lower - bb.upper
    px := fun x y => img.px (bb.left + x) (bb.upper + y) }

/-- Lines 16–18 of the script: crop to the bounding box when it exists,
keep the image unchanged when the bitmap is fully transparent. -/
def cropStep (img : Img) : Img :=
  match getbbox img with
  | some bb => crop img bb
  | none => img

/-- Pillow's `MULDIV255(a, b)` macro:
`tmp = a*b + 128; ((tmp >> 8) + tmp) >> 8`, the exact rounding of
`a*b/255` for 8-bit operands. -/
def muldiv255 (a b : ℕ) : ℕ :=
  let tmp := a * b + 128
  ((tmp >>> 8) + tmp) >>> 8

/-- Pillow's `BLEND` macro used by masked paste, per band:
`MULDIV255(dst, 255 - mask) + MULDIV255(src, mask)`. -/
def blendChan (mask dst src : ℕ) : ℕ :=
  muldiv255 dst (255 - mask) + muldiv255 src mask

/-- Masked paste of one RGBA pixel over another, the mask being the source
pixel's own alpha band (the script passes `car_img` as its own mask). -/
def blendPx (dst src : RGBA) : RGBA :=
  ⟨blendChan src.a dst.r src.r,
   blendChan src.a dst.g src.g,
   blendChan src.a dst.b src.b,
   blendChan src.a dst.a src.a⟩

/-- `icon.paste(content, (ox, oy), content)`: inside the paste rectangle
the content is alpha-blended over the canvas; everything else is
untouched. -/
def paste (canvas content : Img) (ox oy : ℕ) : Img :=
  { w := canvas.w
    h := canvas.h
    px := fun x y =>
      if ox ≤ x ∧ x < ox + content.w ∧ oy ≤ y ∧ y < oy + content.h then
        blendPx (canvas.px x y) (content.px (x - ox) (y - oy))
      else canvas.px x y }

/-- `icon.convert('RGB')`: drop the alpha band. -/
def convertRGB (img : Img) : RGBImg :=
  { w := img.w
    h := img.h
    px := fun x y => ⟨(img.px x y).r, (img.px x y).g, (img.px x y).b⟩ }

/-- The canvas of line 23:
`Image.new('RGBA', (icon_size, icon_size), (255, 255, 255, 255))`. -/
def whiteRGBA : RGBA := ⟨255, 255, 255, 255⟩

/-- The white 1024×1024 canvas `icon`. -/
def icon : Img := { w := icon_size, h := icon_size, px := fun _ _ => whiteRGBA }

/-- A resampling kernel: given the source bitmap and the target dimensions,
the pixel function of the resampled bitmap.  `Image.LANCZOS` computes these
values by floating-point convolution; no claim below depends on them, so
the pipeline is parametrized by the kernel and fixes only what PIL
guarantees — the output has exactly the requested dimensions. -/
def Resampler : Type := Img → ℕ → ℕ → ℕ → ℕ → RGBA

/-- `img.resize((w, h), Image.LANCZOS)`: a bitmap of exactly the requested
dimensions whose pixels come from the resampling kernel. -/
def resize (k : Resampler) (img : Img) (w h : ℕ) : Img := ⟨w, h, k img w h⟩

/-- `offset_y = (icon_size - new_h) // 2`. -/
def offset_y (nh : ℕ) : ℕ := (icon_size - nh) / 2

/-- Lines 13–43 of the script as a pure function from the rasterized RGBA
bitmap to the saved RGB icon: crop to the alpha bounding box, scale to fit
`max_area` preserving aspect (Python float arithmetic), paste centered on
the white canvas with the content's alpha as mask, flatten to RGB. -/
def generate_icon (k : Resampler) (car : Img) : RGBImg :=
  convertRGB
    (paste icon
      (resize k (cropStep car)
        (new_w (cropStep car).w (cropStep car).h)
        (new_h (cropStep car).w (cropStep car).h))
      (offset_x (new_w (cropStep car).w (cropStep car).h))
      (offset_y (new_h (cropStep car).w (cropStep car).h)))

/-- The failure modes of the script's fallible steps: `CalledProcessError`
raised by `subprocess.run(..., check=True)` on a non-zero exit,
`FileNotFoundError` when the executable is missing, and any I/O failure
from the later save step.  All are uncaught. -/
inductive RunError where
  | exitNonZero (code : ℕ)
  | notFound
  | ioError
deriving DecidableEq, Repr

/-- The slice of the filesystem the script touches: the input
`assets/logo.svg` (abstract content of type `V`), the temporary
`assets/car_temp.png`, and the output `assets/icon.png`. -/
structure FS (V : Type) where
  logo : V
  car_temp : Option Img
  icon_png : Option RGBImg

/-- One run of the script over the filesystem model.

`rasterize` abstracts lines 6–13 (the `rsvg-convert` subprocess plus
`Image.open(...).convert('RGBA')`): deterministic in the logo content, it
either fails — non-zero exit or missing executable, both uncaught — or
yields the rasterized RGBA bitmap.  `save` abstracts
`icon_rgb.save('assets/icon.png', 'PNG')`, which may also raise.  On a
rasterization failure the script stops at line 11 with nothing else
performed (whether `rsvg-convert` left a partial temporary file behind is
outside the model, which keeps that field unchanged).  On a save failure
execution stops before line 46's `os.remove`, so the temporary file
(holding the rasterized bitmap) stays on disk.  Only when every step
succeeds does the run delete the temporary file — after the output has
been written. -/
def run {V : Type} (rasterize : V → Except RunError Img) (k : Resampler)
    (save : RGBImg → Except RunError Unit) (fs : FS V) :
    Except RunError Unit × FS V :=
  match rasterize fs.logo with
  | .error e => (.error e, fs)
  | .ok car =>
    match save (generate_icon k car) with
    | .error e =>
      (.error e, { logo := fs.logo, car_temp := some car, icon_png := fs.icon_png })
    | .ok _ =>
      (.ok (), { logo := fs.logo, car_temp := none, icon_png := some (generate_icon k car) })

/-- A constant resampling kernel used to instantiate the
kernel-parametric theorems on concrete inputs. -/
def kConst : Resampler := fun _ _ _ _ _ => ⟨1, 2, 3, 255⟩

/-- A fully opaque 600×600 bitmap (the C4 end-to-end scenario's content). -/
def imgFull : Img := ⟨600, 600, fun _ _ => ⟨5, 6, 7, 255⟩⟩

/-- A fully transparent 2×2 bitmap. -/
def imgClear : Img := ⟨2, 2, fun _ _ => ⟨0, 0, 0, 0⟩⟩

/-- A 3×3 bitmap whose only nonzero-alpha pixel is at (1, 1). -/
def imgDot : Img :=
  ⟨3, 3, fun x y => if x = 1 ∧ y = 1 then ⟨0, 0, 0, 200⟩ else ⟨0, 0, 0, 0⟩⟩

/-- A fully opaque 2×2 bitmap. -/
def imgSquare : Img := ⟨2, 2, fun _ _ => ⟨9, 9, 9, 255⟩⟩

/-- An initial filesystem: some logo, no temporary file, no output yet. -/
def fsInit : FS Unit := ⟨(), none, none⟩

/-- A rasterizer whose subprocess exits non-zero. -/
def rasterFail : Unit → Except RunError Img := fun _ => .error (.exitNonZero 1)

/-- A rasterizer that succeeds with `imgSquare`. -/
def rasterOk : Unit → Except RunError Img := fun _ => .ok imgSquare

/-- A save step that always succeeds. -/
def saveOk : RGBImg → Except RunError Unit := fun _ => .ok ()

/-- A save step that always fails. -/
def saveFail : RGBImg → Except RunError Unit := fun _ => .error .ioError

example : max_area = 744 := by decide
example : new_w 600 600 = 744 := by decide
example : new_h 600 600 = 744 := by decide
example : new_w 41 41 = 743 := by decide
example : new_w 800 1 = 744 := by decide
example : new_h 800 1 = 0 := by decide
example : new_w 800 400 = 744 := by decide
example : new_h 800 400 = 372 := by decide
example : scale 600 600 = ⟨5584463537939415, 2 ^ 52⟩ := by decide

lemma mem_alphaPts (img : Img) (p : ℕ × ℕ) :
    p ∈ alphaPts img ↔ p.1 < img.w ∧ p.2 < img.h ∧ 0 < (img.px p.1 p.2).a := by
  simp [alphaPts, Finset.mem_filter, Finset.mem_product, and_assoc]

/-- C2: whenever `getbbox` returns a box, the box contains every pixel with
nonzero alpha, and each of its four border lines carries at least one such
pixel — it is the smallest enclosing rectangle, excluding every fully
transparent border row and column. -/
theorem getbbox_tight (img : Img) (bb : Box) (hbb : getbbox img = some bb) :
    (∀ x y, x < img.w → y < img.h → 0 < (img.px x y).a →
      bb.left ≤ x ∧ x < bb.right ∧ bb.upper ≤ y ∧ y < bb.lower) ∧
    (∃ y, y < img.h ∧ 0 < (img.px bb.left y).a) ∧
    (∃ y, y < img.h ∧ 0 < (img.px (bb.right - 1) y).a) ∧
    (∃ x, x < img.w ∧ 0 < (img.px x bb.upper).a) ∧
    (∃ x, x < img.w ∧ 0 < (img.px x (bb.lower - 1)).a) := by
  unfold getbbox at hbb
  split at hbb
  case isFalse => exact absurd hbb (by simp)
  case isTrue hne =>
    injection hbb with hbb
    subst hbb
    simp only
    refine ⟨?_, ?_, ?_, ?_, ?_⟩
    · intro x y hx hy ha
      have hmem : (x, y) ∈ alphaPts img := (mem_alphaPts img (x, y)).mpr ⟨hx, hy, ha⟩
      have h1 := Finset.min'_le _ x (Finset.mem_image_of_mem Prod.fst hmem)
      have h2 := Finset.le_max' _ x (Finset.mem_image_of_mem Prod.fst hmem)
      have h3 := Finset.min'_le _ y (Finset.mem_image_of_mem Prod.snd hmem)
      have h4 := Finset.le_max' _ y (Finset.mem_image_of_mem Prod.snd hmem)
      exact ⟨h1, by omega, h3, by omega⟩
    · have hm := Finset.min'_mem _ (hne.image Prod.fst)
      obtain ⟨p, hp, hpx⟩ := Finset.mem_image.mp hm
      obtain ⟨h1, h2, h3⟩ := (mem_alphaPts img p).mp hp
      exact ⟨p.2, h2, by rw [hpx] at h3; exact h3⟩
    · have hm := Finset.max'_mem _ (hne.image Prod.fst)
      obtain ⟨p, hp, hpx⟩ := Finset.mem_image.mp hm
      obtain ⟨h1, h2, h3⟩ := (mem_alphaPts img p).mp hp
      refine ⟨p.2, h2, ?_⟩
      rw [Nat.add_sub_cancel, ← hpx]
      exact h3
    · have hm := Finset.min'_mem _ (hne.image Prod.snd)
      obtain ⟨p, hp, hpx⟩ := Finset.mem_image.mp hm
      obtain ⟨h1, h2, h3⟩ := (mem_alphaPts img p).mp hp
      exact ⟨p.1, h1, by rw [hpx] at h3; exact h3⟩
    · have hm := Finset.max'_mem _ (hne.image Prod.snd)
      obtain ⟨p, hp, hpx⟩ := Finset.mem_image.mp hm
      obtain ⟨h1, h2, h3⟩ := (mem_alphaPts img p).mp hp
      refine ⟨p.1, h1, ?_⟩
      rw [Nat.add_sub_cancel, ← hpx]
      exact h3

/-- C7: a fully transparent bitmap has no bounding box and the crop step
leaves it unchanged. -/
theorem cropStep_transparent (img : Img)
    (h : ∀ x y, x < img.w → y < img.h → (img.px x y).a = 0) :
    getbbox img = none ∧ cropStep img = img := by
  have hempty : ¬ (alphaPts img).Nonempty := by
    rintro ⟨p, hp⟩
    obtain ⟨h1, h2, h3⟩ := (mem_alphaPts img p).mp hp
    rw [h p.1 p.2 h1 h2] at h3
    exact lt_irrefl 0 h3
  have hb : getbbox img = none := by
    unfold getbbox
    exact dif_neg hempty
  exact ⟨hb, by unfold cropStep; rw [hb]⟩

lemma alphaPts_mem_of (img : Img) (hpx : ∀ x y, x < img.w → y < img.h → 0 < (img.px x y).a)
    (x y : ℕ) (hx : x < img.w) (hy : y < img.h) : (x, y) ∈ alphaPts img :=
  (mem_alphaPts img (x, y)).mpr ⟨hx, hy, hpx x y hx hy⟩

lemma getbbox_allAlpha (img : Img) (hw : 0 < img.w) (hh : 0 < img.h)
    (hpx : ∀ x y, x < img.w → y < img.h → 0 < (img.px x y).a) :
    getbbox img = some ⟨0, 0, img.w, img.h⟩ := by
  have hne : (alphaPts img).Nonempty := ⟨(0, 0), alphaPts_mem_of img hpx 0 0 hw hh⟩
  unfold getbbox
  split
  case isFalse h => exact absurd hne h
  case isTrue h =>
    simp only [Option.some.injEq, Box.mk.injEq]
    have hm1 : (0 : ℕ) ∈ (alphaPts img).image Prod.fst :=
      Finset.mem_image_of_mem Prod.fst (alphaPts_mem_of img hpx 0 0 hw hh)
    have hm2 : (0 : ℕ) ∈ (alphaPts img).image Prod.snd :=
      Finset.mem_image_of_mem Prod.snd (alphaPts_mem_of img hpx 0 0 hw hh)
    have hm3 : img.w - 1 ∈ (alphaPts img).image Prod.fst :=
      Finset.mem_image_of_mem Prod.fst (alphaPts_mem_of img hpx (img.w - 1) 0 (by omega) hh)
    have hm4 : img.h - 1 ∈ (alphaPts img).image Prod.snd :=
      Finset.mem_image_of_mem Prod.snd (alphaPts_mem_of img hpx 0 (img.h - 1) hw (by omega))
    refine ⟨?_, ?_, ?_, ?_⟩
    · exact Nat.eq_zero_of_le_zero (Finset.min'_le _ 0 hm1)
    · exact Nat.eq_zero_of_le_zero (Finset.min'_le _ 0 hm2)
    · have e3 : ((alphaPts img).image Prod.fst).max' (h.image _) ≤ img.w - 1 := by
        obtain ⟨p, hp, hpx1⟩ := Finset.mem_image.mp (Finset.max'_mem _ (h.image Prod.fst))
        have h1 := ((mem_alphaPts img p).mp hp).1
        omega
      have e3' := Finset.le_max' _ (img.w - 1) hm3
      have e := le_antisymm e3 e3'
      rw [e]
      omega
    · have e4 : ((alphaPts img).image Prod.snd).max' (h.image _) ≤ img.h - 1 := by
        obtain ⟨p, hp, hpx1⟩ := Finset.mem_image.mp (Finset.max'_mem _ (h.image Prod.snd))
        have h1 := ((mem_alphaPts img p).mp hp).2.1
        omega
      have e4' := Finset.le_max' _ (img.h - 1) hm4
      have e := le_antisymm e4 e4'
      rw [e]
      omega

lemma cropStep_allAlpha (img : Img) (hw : 0 < img.w) (hh : 0 < img.h)
    (hpx : ∀ x y, x < img.w → y < img.h → 0 < (img.px x y).a) :
    cropStep img = img := by
  unfold cropStep
  rw [getbbox_allAlpha img hw hh hpx]
  show crop img ⟨0, 0, img.w, img.h⟩ = img
  unfold crop
  cases img with
  | mk w h px =>
    simp only [Img.mk.injEq, Nat.sub_zero]
    refine ⟨trivial, trivial, ?_⟩
    funext x y
    rw [Nat.zero_add, Nat.zero_add]

/-- C3: the centering offset is `(icon_size - d) // 2`, the far-side
remainder `icon_size - offset - d` is at least the offset and exceeds it
by at most one, the excess occurring exactly when `icon_size - d` is odd;
`offset_y` is the same formula. -/
theorem offset_center (d : ℕ) (hd : d ≤ icon_size) :
    offset_x d = (icon_size - d) / 2 ∧ offset_y d = offset_x d ∧
    offset_x d ≤ icon_size - offset_x d - d ∧
    (icon_size - offset_x d - d) - offset_x d ≤ 1 ∧
    ((icon_size - offset_x d - d ≠ offset_x d) ↔ Odd (icon_size - d)) := by
  unfold offset_x offset_y icon_size at *
  rw [Nat.odd_iff]
  omega

/-- C10: for cropped content of 800×1 the computed scale is the double
nearest 0.93, the truncated scaled height `int(car_h * scale)` is 0, and
the resize step is therefore invoked with a zero height (while the width
is 744). -/
theorem new_h_not_positive :
    scale 800 1 = ⟨8376695306909123, 2 ^ 53⟩ ∧
    new_w 800 1 = 744 ∧ new_h 800 1 = 0 ∧ ¬ 0 < new_h 800 1 := by decide

lemma scaleSpec_comm (w h : ℕ) : scaleSpec w h = scaleSpec h w := min_comm _ _

lemma new_wSpec_swap (w h : ℕ) : new_wSpec w h = new_hSpec h w := by
  unfold new_wSpec new_hSpec
  rw [scaleSpec_comm]

lemma max_area_posQ : (0 : ℚ) < (max_area : ℚ) := by
  norm_num [max_area, icon_size, padding]

lemma specFit (w h : ℕ) (hw : 0 < w) (hh : 0 < h)
    (hle : (max_area : ℚ) / (w : ℚ) ≤ (max_area : ℚ) / (h : ℚ)) :
    new_wSpec w h = (max_area : ℤ) ∧
    new_hSpec w h ≤ (max_area : ℤ) ∧
    0 ≤ (max_area : ℤ) * h - w * new_hSpec w h ∧
    (max_area : ℤ) * h - w * new_hSpec w h < w := by
  have hw0 : (w : ℚ) ≠ 0 := Nat.cast_ne_zero.mpr hw.ne'
  have hwpos : (0 : ℚ) < w := by exact_mod_cast hw
  have hhpos : (0 : ℚ) < h := by exact_mod_cast hh
  have hsc : scaleSpec w h = (max_area : ℚ) / w := min_eq_left hle
  have hmul : (w : ℚ) * ((max_area : ℚ) / w) = (max_area : ℚ) := by field_simp
  have hfirst : new_wSpec w h = (max_area : ℤ) := by
    unfold new_wSpec
    rw [hsc, hmul]
    exact Int.floor_natCast max_area
  have hhw : (h : ℚ) ≤ (w : ℚ) := by
    rw [div_le_div_iff₀ hwpos hhpos] at hle
    exact le_of_mul_le_mul_left (by linarith) max_area_posQ
  have hfl : new_hSpec w h = ⌊(h : ℚ) * ((max_area : ℚ) / w)⌋ := by
    unfold new_hSpec
    rw [hsc]
  have hwt : (w : ℚ) * ((h : ℚ) * ((max_area : ℚ) / w)) = (max_area : ℚ) * h := by
    field_simp
    ring
  have ht_le : (h : ℚ) * ((max_area : ℚ) / w) ≤ (max_area : ℚ) := by
    calc (h : ℚ) * ((max_area : ℚ) / w) ≤ (w : ℚ) * ((max_area : ℚ) / w) :=
          mul_le_mul_of_nonneg_right hhw (by positivity)
      _ = (max_area : ℚ) := hmul
  have hsecond : new_hSpec w h ≤ (max_area : ℤ) := by
    rw [hfl]
    calc ⌊(h : ℚ) * ((max_area : ℚ) / w)⌋ ≤ ⌊(max_area : ℚ)⌋ := Int.floor_le_floor ht_le
      _ = (max_area : ℤ) := Int.floor_natCast max_area
  set t := (h : ℚ) * ((max_area : ℚ) / w) with ht
  have h0 : 0 ≤ t - ⌊t⌋ := sub_nonneg.mpr (Int.floor_le t)
  have h1 : t - ⌊t⌋ < 1 := by
    have := Int.lt_floor_add_one t
    linarith
  have hcast : (((max_area : ℤ) * h - w * new_hSpec w h : ℤ) : ℚ) = (w : ℚ) * (t - ⌊t⌋) := by
    rw [hfl]
    push_cast
    rw [mul_sub, hwt]
  refine ⟨hfirst, hsecond, ?_, ?_⟩
  · have : (0 : ℚ) ≤ (((max_area : ℤ) * h - w * new_hSpec w h : ℤ) : ℚ) := by
      rw [hcast]
      exact mul_nonneg hwpos.le h0
    exact_mod_cast this
  · have : (((max_area : ℤ) * h - w * new_hSpec w h : ℤ) : ℚ) < (w : ℚ) := by
      rw [hcast]
      calc (w : ℚ) * (t - ⌊t⌋) < (w : ℚ) * 1 := by
            exact mul_lt_mul_of_pos_left h1 hwpos
        _ = (w : ℚ) := mul_one _
    exact_mod_cast this

/-- C1 (amended): under the exact real division the spec states, the scaled
dimensions never exceed `max_area`, the constrained axis lands exactly on
`max_area`, and the aspect ratio is preserved within rounding tolerance
(the cross-products differ by less than one rounding unit per axis). -/
theorem scale_fits_exact (w h : ℕ) (hw : 0 < w) (hh : 0 < h) :
    new_wSpec w h ≤ (max_area : ℤ) ∧ new_hSpec w h ≤ (max_area : ℤ) ∧
    (new_wSpec w h = (max_area : ℤ) ∨ new_hSpec w h = (max_area : ℤ)) ∧
    |new_wSpec w h * (h : ℤ) - (w : ℤ) * new_hSpec w h| ≤ max (w : ℤ) (h : ℤ) := by
  rcases le_total ((max_area : ℚ) / (w : ℚ)) ((max_area : ℚ) / (h : ℚ)) with hle | hle
  · obtain ⟨h1, h2, h3, h4⟩ := specFit w h hw hh hle
    refine ⟨le_of_eq h1, h2, Or.inl h1, ?_⟩
    rw [h1, abs_le]
    have hmw : (w : ℤ) ≤ max (w : ℤ) (h : ℤ) := le_max_left _ _
    constructor <;> omega
  · obtain ⟨h1, h2, h3, h4⟩ := specFit h w hh hw hle
    rw [← new_wSpec_swap w h] at h2 h3 h4
    rw [new_wSpec_swap h w] at h1
    refine ⟨h2, le_of_eq h1, Or.inr h1, ?_⟩
    rw [h1, abs_le]
    have hmh : (h : ℤ) ≤ max (w : ℤ) (h : ℤ) := le_max_right _ _
    have c1 : new_wSpec w h * (h : ℤ) = (h : ℤ) * new_wSpec w h := mul_comm _ _
    have c2 : (w : ℤ) * (max_area : ℤ) = (max_area : ℤ) * (w : ℤ) := mul_comm _ _
    constructor <;> omega

lemma muldiv255_zero (c : ℕ) : muldiv255 c 0 = 0 := by
  unfold muldiv255
  rw [Nat.mul_zero]
  decide

set_option maxRecDepth 4096 in
lemma muldiv255_full : ∀ c < 256, muldiv255 c 255 = c := by decide

lemma blendChan_fullAlpha (d s : ℕ) (hs : s < 256) : blendChan 255 d s = s := by
  unfold blendChan
  rw [show (255 : ℕ) - 255 = 0 from rfl, muldiv255_zero, muldiv255_full s hs, Nat.zero_add]

lemma blendPx_fullAlpha (dst src : RGBA) (ha : src.a = 255)
    (hr : src.r < 256) (hg : src.g < 256) (hb : src.b < 256) :
    blendPx dst src = ⟨src.r, src.g, src.b, 255⟩ := by
  unfold blendPx
  rw [ha, blendChan_fullAlpha _ _ hr, blendChan_fullAlpha _ _ hg, blendChan_fullAlpha _ _ hb,
    blendChan_fullAlpha _ _ (by norm_num)]

/-- C1 counterexample: for the 41×41 content bitmap the script's float
arithmetic truncates both scaled dimensions to 743, so neither axis
reaches `max_area = 744` — while exact division would give 744. -/
theorem scale_shortfall_41 :
    new_w 41 41 = 743 ∧ new_h 41 41 = 743 ∧
    ¬ (new_w 41 41 = max_area ∨ new_h 41 41 = max_area) ∧
    new_wSpec 41 41 = (max_area : ℤ) := by
  have h1 : new_w 41 41 = 743 := by decide
  have h2 : new_h 41 41 = 743 := by decide
  have hm : max_area = 744 := by decide
  exact ⟨h1, h2, by omega, (specFit 41 41 (by decide) (by decide) (le_refl _)).1⟩

/-- C5: the flattened output is an RGB bitmap (structurally without an
alpha band), and every pixel outside the composited rectangle
`[offset_x, offset_x + new_w) × [offset_y, offset_y + new_h)` is pure
white `(255, 255, 255)` — whatever the content and the resampling kernel. -/
theorem output_white_outside (k : Resampler) (car : Img) (x y : ℕ)
    (_hx : x < icon_size) (_hy : y < icon_size)
    (hout : x < offset_x (new_w (cropStep car).w (cropStep car).h) ∨
      offset_x (new_w (cropStep car).w (cropStep car).h) +
        new_w (cropStep car).w (cropStep car).h ≤ x ∨
      y < offset_y (new_h (cropStep car).w (cropStep car).h) ∨
      offset_y (new_h (cropStep car).w (cropStep car).h) +
        new_h (cropStep car).w (cropStep car).h ≤ y) :
    (generate_icon k car).px x y = ⟨255, 255, 255⟩ := by
  unfold generate_icon
  simp only [convertRGB, paste, resize, icon]
  rw [if_neg (by omega)]
  rfl

/-- C4: end-to-end scenario — fully opaque 600×600 content, canvas 1024,
padding 140: available extent 744, scaled dimensions 744×744, offsets
(140, 140); the output is 1024×1024, shows the resampled content exactly
on the square `[140, 884) × [140, 884)` (fully opaque there, so the white
background does not bleed through), and is pure white everywhere else. -/
theorem generate_icon_600 (k : Resampler) (car : Img)
    (hw : car.w = 600) (hh : car.h = 600)
    (hpx : ∀ x y, x < car.w → y < car.h → (car.px x y).a = 255)
    (hk : ∀ x y, (k car 744 744 x y).a = 255 ∧ (k car 744 744 x y).r < 256 ∧
      (k car 744 744 x y).g < 256 ∧ (k car 744 744 x y).b < 256) :
    max_area = 744 ∧ new_w 600 600 = 744 ∧ new_h 600 600 = 744 ∧
    offset_x 744 = 140 ∧ offset_y 744 = 140 ∧
    (generate_icon k car).w = 1024 ∧ (generate_icon k car).h = 1024 ∧
    (∀ x y, 140 ≤ x → x < 884 → 140 ≤ y → y < 884 →
      (generate_icon k car).px x y =
        ⟨(k car 744 744 (x - 140) (y - 140)).r,
         (k car 744 744 (x - 140) (y - 140)).g,
         (k car 744 744 (x - 140) (y - 140)).b⟩) ∧
    (∀ x y, ¬ (140 ≤ x ∧ x < 884 ∧ 140 ≤ y ∧ y < 884) →
      (generate_icon k car).px x y = ⟨255, 255, 255⟩) := by
  have hcrop : cropStep car = car := cropStep_allAlpha car (by omega) (by omega)
    (fun x y hx hy => by rw [hpx x y hx hy]; norm_num)
  have h744w : new_w 600 600 = 744 := by decide
  have h744h : new_h 600 600 = 744 := by decide
  have hox : offset_x 744 = 140 := by decide
  have hoy : offset_y 744 = 140 := by decide
  refine ⟨by decide, h744w, h744h, hox, hoy, rfl, rfl, ?_, ?_⟩
  · intro x y h1 h2 h3 h4
    unfold generate_icon
    rw [hcrop, hw, hh, h744w, h744h, hox, hoy]
    simp only [convertRGB, paste, resize, icon]
    rw [if_pos (by omega)]
    rw [blendPx_fullAlpha _ _ (hk (x - 140) (y - 140)).1 (hk (x - 140) (y - 140)).2.1
      (hk (x - 140) (y - 140)).2.2.1 (hk (x - 140) (y - 140)).2.2.2]
  · intro x y hcond
    unfold generate_icon
    rw [hcrop, hw, hh, h744w, h744h, hox, hoy]
    simp only [convertRGB, paste, resize, icon]
    rw [if_neg (by omega)]
    rfl

/-- C6: if the rasterization subprocess fails (non-zero exit or missing
executable), the error propagates as the run's outcome and the filesystem
is exactly as before — no image loading, cropping, scaling, compositing or
output writing happens; there is no retry and no fallback. -/
theorem run_raster_failure {V : Type} (rasterize : V → Except RunError Img)
    (k : Resampler) (save : RGBImg → Except RunError Unit) (fs : FS V)
    (e : RunError) (h : rasterize fs.logo = .error e) :
    run rasterize k save fs = (.error e, fs) := by
  unfold run
  rw [h]

/-- C8: the temporary file's deletion is reached only on the all-success
path: if the save step fails after the temporary file was created, the
temporary file survives on disk (orphaned); when every step succeeds, the
run ends with the temporary file removed and the output written. -/
theorem run_temp_cleanup {V : Type} (rasterize : V → Except RunError Img)
    (k : Resampler) (save : RGBImg → Except RunError Unit) (fs : FS V)
    (car : Img) (hr : rasterize fs.logo = .ok car) :
    (∀ e, save (generate_icon k car) = .error e →
      (run rasterize k save fs).2.car_temp = some car ∧
      (run rasterize k save fs).1 = .error e) ∧
    (save (generate_icon k car) = .ok () →
      (run rasterize k save fs).2.car_temp = none ∧
      (run rasterize k save fs).2.icon_png = some (generate_icon k car) ∧
      (run rasterize k save fs).1 = .ok ()) := by
  constructor
  · intro e hs
    simp only [run, hr, hs]
    exact ⟨trivial, trivial⟩
  · intro hs
    simp only [run, hr, hs]
    exact ⟨trivial, trivial, trivial⟩

/-- C9: determinism and idempotence — when the rasterizer succeeds (it is
deterministic in the unchanged logo content) and saving succeeds, a second
run recomputes the very same icon and overwrites the output with it. -/
theorem run_idempotent {V : Type} (rasterize : V → Except RunError Img)
    (k : Resampler) (save : RGBImg → Except RunError Unit) (fs : FS V)
    (car : Img) (hr : rasterize fs.logo = .ok car)
    (hs : ∀ o, save o = .ok ()) :
    (run rasterize k save (run rasterize k save fs).2).2.icon_png
      = (run rasterize k save fs).2.icon_png ∧
    (run rasterize k save fs).2.icon_png = some (generate_icon k car) := by
  have h1 : run rasterize k save fs
      = (.ok (), { logo := fs.logo, car_temp := none,
                   icon_png := some (generate_icon k car) }) := by
    simp only [run, hr, hs]
  have h2 : run rasterize k save
      { logo := fs.logo, car_temp := none, icon_png := some (generate_icon k car) }
      = (.ok (), { logo := fs.logo, car_temp := none,
                   icon_png := some (generate_icon k car) }) := by
    simp only [run, hr, hs]
  rw [h1]
  constructor
  · show (run rasterize k save
      { logo := fs.logo, car_temp := none,
        icon_png := some (generate_icon k car) }).2.icon_png = _
    rw [h2]
  · rfl

/-- Witness for `getbbox_tight`: on the 3×3 bitmap with a single opaque
pixel at (1, 1), `getbbox` returns the 1×1 box at (1, 1) and the tightness
properties hold there. -/
theorem getbbox_tight_witness :
    getbbox imgDot = some ⟨1, 1, 2, 2⟩ ∧
    ((∀ x y, x < imgDot.w → y < imgDot.h → 0 < (imgDot.px x y).a →
        (1 : ℕ) ≤ x ∧ x < 2 ∧ (1 : ℕ) ≤ y ∧ y < 2) ∧
      (∃ y, y < imgDot.h ∧ 0 < (imgDot.px 1 y).a) ∧
      (∃ y, y < imgDot.h ∧ 0 < (imgDot.px (2 - 1) y).a) ∧
      (∃ x, x < imgDot.w ∧ 0 < (imgDot.px x 1).a) ∧
      (∃ x, x < imgDot.w ∧ 0 < (imgDot.px x (2 - 1)).a)) :=
  ⟨by decide, getbbox_tight imgDot ⟨1, 1, 2, 2⟩ (by decide)⟩

/-- Witness for `cropStep_transparent` on the fully transparent 2×2
bitmap. -/
theorem cropStep_transparent_witness :
    (∀ x y, x < imgClear.w → y < imgClear.h → (imgClear.px x y).a = 0) ∧
    (getbbox imgClear = none ∧ cropStep imgClear = imgClear) :=
  ⟨fun _ _ _ _ => rfl, cropStep_transparent imgClear (fun _ _ _ _ => rfl)⟩

/-- Witness for `offset_center` at the scaled dimension 101 (odd
leftover: `1024 - 101 = 923`). -/
theorem offset_center_witness :
    (101 : ℕ) ≤ icon_size ∧
    (offset_x 101 = (icon_size - 101) / 2 ∧ offset_y 101 = offset_x 101 ∧
      offset_x 101 ≤ icon_size - offset_x 101 - 101 ∧
      (icon_size - offset_x 101 - 101) - offset_x 101 ≤ 1 ∧
      ((icon_size - offset_x 101 - 101 ≠ offset_x 101) ↔ Odd (icon_size - 101))) :=
  ⟨by decide, offset_center 101 (by decide)⟩

/-- Witness for `scale_fits_exact` at the spec's 800×400 wide-content
scenario. -/
theorem scale_fits_exact_witness :
    (0 : ℕ) < 800 ∧ (0 : ℕ) < 400 ∧
    (new_wSpec 800 400 ≤ (max_area : ℤ) ∧ new_hSpec 800 400 ≤ (max_area : ℤ) ∧
      (new_wSpec 800 400 = (max_area : ℤ) ∨ new_hSpec 800 400 = (max_area : ℤ)) ∧
      |new_wSpec 800 400 * ((400 : ℕ) : ℤ) - ((800 : ℕ) : ℤ) * new_hSpec 800 400| ≤
        max ((800 : ℕ) : ℤ) ((400 : ℕ) : ℤ)) :=
  ⟨by decide, by decide, scale_fits_exact 800 400 (by decide) (by decide)⟩

/-- Witness for `generate_icon_600`: the fully opaque 600×600 bitmap with
the constant resampling kernel. -/
theorem generate_icon_600_witness :
    imgFull.w = 600 ∧ imgFull.h = 600 ∧
    (∀ x y, x < imgFull.w → y < imgFull.h → (imgFull.px x y).a = 255) ∧
    (∀ x y, (kConst imgFull 744 744 x y).a = 255 ∧
      (kConst imgFull 744 744 x y).r < 256 ∧
      (kConst imgFull 744 744 x y).g < 256 ∧
      (kConst imgFull 744 744 x y).b < 256) ∧
    (max_area = 744 ∧ new_w 600 600 = 744 ∧ new_h 600 600 = 744 ∧
      offset_x 744 = 140 ∧ offset_y 744 = 140 ∧
      (generate_icon kConst imgFull).w = 1024 ∧
      (generate_icon kConst imgFull).h = 1024 ∧
      (∀ x y, 140 ≤ x → x < 884 → 140 ≤ y → y < 884 →
        (generate_icon kConst imgFull).px x y =
          ⟨(kConst imgFull 744 744 (x - 140) (y - 140)).r,
           (kConst imgFull 744 744 (x - 140) (y - 140)).g,
           (kConst imgFull 744 744 (x - 140) (y - 140)).b⟩) ∧
      (∀ x y, ¬ (140 ≤ x ∧ x < 884 ∧ 140 ≤ y ∧ y < 884) →
        (generate_icon kConst imgFull).px x y = ⟨255, 255, 255⟩)) :=
  ⟨rfl, rfl, fun _ _ _ _ => rfl,
    fun _ _ => ⟨rfl, show (1 : ℕ) < 256 by decide, show (2 : ℕ) < 256 by decide,
      show (3 : ℕ) < 256 by decide⟩,
    generate_icon_600 kConst imgFull rfl rfl (fun _ _ _ _ => rfl)
      (fun _ _ => ⟨rfl, show (1 : ℕ) < 256 by decide, show (2 : ℕ) < 256 by decide,
        show (3 : ℕ) < 256 by decide⟩)⟩

/-- Witness for `output_white_outside`: the top-left corner pixel of the
output for a 2×2 opaque content is white. -/
theorem output_white_outside_witness :
    (0 : ℕ) < icon_size ∧
    ((0 : ℕ) < offset_x (new_w (cropStep imgSquare).w (cropStep imgSquare).h) ∨
      offset_x (new_w (cropStep imgSquare).w (cropStep imgSquare).h) +
        new_w (cropStep imgSquare).w (cropStep imgSquare).h ≤ 0 ∨
      (0 : ℕ) < offset_y (new_h (cropStep imgSquare).w (cropStep imgSquare).h) ∨
      offset_y (new_h (cropStep imgSquare).w (cropStep imgSquare).h) +
        new_h (cropStep imgSquare).w (cropStep imgSquare).h ≤ 0) ∧
    (generate_icon kConst imgSquare).px 0 0 = ⟨255, 255, 255⟩ :=
  ⟨by decide, Or.inl (by decide),
    output_white_outside kConst imgSquare 0 0 (by decide) (by decide)
      (Or.inl (by decide))⟩

/-- Witness for `run_raster_failure`: a rasterizer exiting non-zero leaves
the filesystem untouched and propagates the error. -/
theorem run_raster_failure_witness :
    rasterFail fsInit.logo = .error (.exitNonZero 1) ∧
    run rasterFail kConst saveOk fsInit = (.error (.exitNonZero 1), fsInit) :=
  ⟨rfl, run_raster_failure rasterFail kConst saveOk fsInit (.exitNonZero 1) rfl⟩

/-- Witness for `run_temp_cleanup`: a succeeding rasterizer together with a
failing save step. -/
theorem run_temp_cleanup_witness :
    rasterOk fsInit.logo = .ok imgSquare ∧
    ((∀ e, saveFail (generate_icon kConst imgSquare) = .error e →
        (run rasterOk kConst saveFail fsInit).2.car_temp = some imgSquare ∧
        (run rasterOk kConst saveFail fsInit).1 = .error e) ∧
      (saveFail (generate_icon kConst imgSquare) = .ok () →
        (run rasterOk kConst saveFail fsInit).2.car_temp = none ∧
        (run rasterOk kConst saveFail fsInit).2.icon_png =
          some (generate_icon kConst imgSquare) ∧
        (run rasterOk kConst saveFail fsInit).1 = .ok ())) :=
  ⟨rfl, run_temp_cleanup rasterOk kConst saveFail fsInit imgSquare rfl⟩

/-- Witness for `run_idempotent`: two successful runs over the same logo
content produce the identical output icon. -/
theorem run_idempotent_witness :
    rasterOk fsInit.logo = .ok imgSquare ∧ (∀ o, saveOk o = .ok ()) ∧
    ((run rasterOk kConst saveOk (run rasterOk kConst saveOk fsInit).2).2.icon_png
        = (run rasterOk kConst saveOk fsInit).2.icon_png ∧
      (run rasterOk kConst saveOk fsInit).2.icon_png =
        some (generate_icon kConst imgSquare)) :=
  ⟨rfl, fun _ => rfl,
    run_idempotent rasterOk kConst saveOk fsInit imgSquare rfl (fun _ => rfl)⟩
